import Mathlib

/-!
Verification of the HTML-to-rich-text converter of the pita repository.

The development shallowly embeds the converter core:

* `extractStyleAttributes`, `getTagAttributes` (src/lib/core/converter/formatters)
* `getFormattedOps` (the inline formatter, same file)
* the block handlers (src/lib/core/converter/handlers/…)
* the dispatcher `convertToSlackTexty` and the fallback `convertToPlainText`
  (src/lib/core/converter/converter)

HTML input is modelled as an already parsed node tree (the source parses with
DOMParser, which is outside the core).  Element tag names are stored lowercase,
matching the pervasive `tagName.toLowerCase()` in the source.  Attribute sets
are modelled as ordered key/value lists, reproducing JavaScript object spread
semantics including key insertion order, because the block-quote handler
compares attribute sets through `JSON.stringify`, which is sensitive to key
order.
-/

namespace Pita

/-- Node of the parsed HTML tree.  `listStyleType` mirrors the parsed CSS
`list-style-type` property read by the list-item handler via
`element.style.listStyleType`; `href` mirrors `getAttribute("href")` (absent
attribute is `none`). -/
inductive HtmlNode where
  | text (content : String)
  | elem (tag : String) (style : String) (listStyleType : String)
      (href : Option String) (children : List HtmlNode)

/-- Children of a node (a text node has none). -/
def childrenOf : HtmlNode → List HtmlNode
  | .text _ => []
  | .elem _ _ _ _ ch => ch

/-- Value of the style attribute, as read by `getAttribute("style") ?? ""`. -/
def styleOf : HtmlNode → String
  | .text _ => ""
  | .elem _ s _ _ _ => s

/-- Value of the href attribute, as read by `getAttribute("href")`. -/
def hrefOf : HtmlNode → Option String
  | .text _ => none
  | .elem _ _ _ h _ => h

/-- Parsed `list-style-type` CSS property of the inline style. -/
def listStyleTypeOf : HtmlNode → String
  | .text _ => ""
  | .elem _ _ l _ _ => l

/-- Whitespace in the sense of the JavaScript string functions used by the
source (`trim`, regex `\s`): ASCII whitespace, NBSP, BOM and the Unicode
space separators. -/
def isJsWs (c : Char) : Bool :=
  c == ' ' || c == '\t' || c == '\n' || c == '\r' || c == '\x0b' || c == '\x0c'
  || c.toNat == 0xa0 || c.toNat == 0x1680
  || (decide (0x2000 ≤ c.toNat) && decide (c.toNat ≤ 0x200a))
  || c.toNat == 0x2028 || c.toNat == 0x2029 || c.toNat == 0x202f
  || c.toNat == 0x205f || c.toNat == 0x3000 || c.toNat == 0xfeff

/-- JavaScript `String.prototype.trim`. -/
def jsTrim (s : String) : String :=
  String.mk (((s.data.dropWhile isJsWs).reverse.dropWhile isJsWs).reverse)

/-- JavaScript `rawText.replace(/\s+$/, "")`: strip trailing whitespace. -/
def jsTrimEnd (s : String) : String :=
  String.mk ((s.data.reverse.dropWhile isJsWs).reverse)

/-- Split a character list at every newline, keeping empty segments. -/
def splitOnNewlineChars : List Char → List (List Char)
  | [] => [[]]
  | c :: cs =>
    if c == '\n' then [] :: splitOnNewlineChars cs
    else
      match splitOnNewlineChars cs with
      | l :: ls => (c :: l) :: ls
      | [] => [[c]]

/-- JavaScript `text.split("\n")`. -/
def splitLines (s : String) : List String :=
  (splitOnNewlineChars s.data).map String.mk

/-- Match a literal character sequence at the head of the input, returning the
rest of the input on success. -/
def matchLit : List Char → List Char → Option (List Char)
  | [], s => some s
  | _ :: _, [] => none
  | p :: ps, c :: cs => if c == p then matchLit ps cs else none

/-- Bool version of `matchLit`. -/
def startsWithLit (pat s : List Char) : Bool :=
  (matchLit pat s).isSome

/-- Does the predicate hold on some suffix of the list?  Used to model regex
`test`, which tries the pattern at every start position. -/
def anySuffix (p : List Char → Bool) : List Char → Bool
  | [] => p []
  | c :: cs => p (c :: cs) || anySuffix p cs

/-- JavaScript `s.includes(pat)` (substring containment). -/
def strContains (s pat : String) : Bool :=
  anySuffix (fun r => startsWithLit pat.data r) s.data

/-- Match `\s*:\s*` at the head of the input. -/
def matchColonWs (s : List Char) : Option (List Char) :=
  match s.dropWhile isJsWs with
  | ':' :: r => some (r.dropWhile isJsWs)
  | _ => none

/-- Match the remainder of `/font-weight\s*:\s*(bold|700|800|900)/i` after a
given start position (the input is already lowercased). -/
def boldAt (s : List Char) : Bool :=
  match matchLit "font-weight".data s with
  | none => false
  | some r =>
    match matchColonWs r with
    | none => false
    | some r2 =>
      startsWithLit "bold".data r2 || startsWithLit "700".data r2
        || startsWithLit "800".data r2 || startsWithLit "900".data r2

/-- Match `/font-weight\s*:\s*(normal|400)\s*(;|$)/i` at a start position. -/
def boldNormalAt (s : List Char) : Bool :=
  match matchLit "font-weight".data s with
  | none => false
  | some r =>
    match matchColonWs r with
    | none => false
    | some r2 =>
      match (matchLit "normal".data r2).orElse (fun _ => matchLit "400".data r2) with
      | none => false
      | some r3 =>
        match r3.dropWhile isJsWs with
        | [] => true
        | ';' :: _ => true
        | _ => false

/-- Match `/font-style\s*:\s*italic/i` at a start position. -/
def italicAt (s : List Char) : Bool :=
  match matchLit "font-style".data s with
  | none => false
  | some r =>
    match matchColonWs r with
    | none => false
    | some r2 => startsWithLit "italic".data r2

/-- Scan for a literal preceded only by non-semicolon characters, modelling
regex `[^;]*lit` (the preceding `\s*` of the source pattern is subsumed
because no whitespace character is a semicolon). -/
def seekLitNonSemi (lit : List Char) : List Char → Bool
  | [] => startsWithLit lit []
  | c :: cs => startsWithLit lit (c :: cs) || (c != ';' && seekLitNonSemi lit cs)

/-- Match `text-decoration[^:]*:` then `\s*[^;]*lit` at a start position:
the `[^:]*` run cannot cross a colon, so the colon matched is the first one
after the literal `text-decoration`. -/
def textDecorationAt (lit : List Char) (s : List Char) : Bool :=
  match matchLit "text-decoration".data s with
  | none => false
  | some r =>
    match r.dropWhile (fun c => c != ':') with
    | ':' :: r2 => seekLitNonSemi lit r2
    | _ => false

/-- Match `border-bottom\s*:` at a start position. -/
def borderBottomAt (s : List Char) : Bool :=
  match matchLit "border-bottom".data s with
  | none => false
  | some r =>
    match r.dropWhile isJsWs with
    | ':' :: _ => true
    | _ => false

/-- STYLE_PATTERNS.bold of src/providers/_shared/constants. -/
def stylePatternBold (style : String) : Bool :=
  anySuffix boldAt (style.data.map Char.toLower)

/-- STYLE_PATTERNS.boldNormal. -/
def stylePatternBoldNormal (style : String) : Bool :=
  anySuffix boldNormalAt (style.data.map Char.toLower)

/-- STYLE_PATTERNS.italic. -/
def stylePatternItalic (style : String) : Bool :=
  anySuffix italicAt (style.data.map Char.toLower)

/-- STYLE_PATTERNS.underline: `text-decoration … underline` or a
`border-bottom` declaration. -/
def stylePatternUnderline (style : String) : Bool :=
  anySuffix (fun s => textDecorationAt "underline".data s || borderBottomAt s)
    (style.data.map Char.toLower)

/-- STYLE_PATTERNS.strikethrough. -/
def stylePatternStrike (style : String) : Bool :=
  anySuffix (fun s => textDecorationAt "line-through".data s)
    (style.data.map Char.toLower)

/-- Attribute value: boolean flag, string (list kind, link URL) or integer
(indent level). -/
inductive AttrVal where
  | b (v : Bool)
  | s (v : String)
  | i (v : Int)
deriving DecidableEq

/-- Attribute set, as an ordered key/value list reproducing JavaScript object
key insertion order. -/
abbrev Attrs := List (String × AttrVal)

/-- One rich-text operation: SlackTextOp of src/providers/_shared/types. -/
structure SlackTextOp where
  insert : String
  attributes : Option Attrs
deriving DecidableEq

/-- Site adapter capability (ServiceAdapter of src/providers/_shared/types),
restricted to the three operations the converter core uses.  The real
adapter receives DOM elements with parent links; here `getListLevel`
additionally receives the ancestor tag chain the dispatcher maintains, which
carries the same information. -/
structure ServiceAdapter where
  getListLevel : HtmlNode → List String → Int
  extractUrl : String → String
  isWrapperElement : HtmlNode → String → Bool

/-- INLINE_TAGS of src/providers/_shared/constants. -/
def INLINE_TAGS : List String :=
  ["span", "a", "b", "i", "u", "s", "em", "strong", "code", "del", "strike"]

/-- ORDERED_LIST_PATTERNS of src/providers/_shared/constants. -/
def ORDERED_LIST_PATTERNS : List String :=
  ["decimal", "number", "alpha", "roman"]

/-- createTextOp of src/lib/core/converter/utils: attach the attribute set
only when it is non-empty. -/
def createTextOp (text : String) (attrs : Attrs) : SlackTextOp :=
  if attrs.length > 0 then ⟨text, some attrs⟩ else ⟨text, none⟩

/-- JavaScript object spread `{...x, ...y}`: keys of `x` in order with values
overridden by `y` where present, then keys of `y` not in `x`, in order. -/
def mergeAttrs (x y : Attrs) : Attrs :=
  x.map (fun kv => (kv.1, ((y.lookup kv.1).getD kv.2)))
    ++ y.filter (fun kv => (x.lookup kv.1).isNone)

/-- extractStyleAttributes of src (formatters): style-derived inline
attributes, assembled in source insertion order. -/
def extractStyleAttributes (style : String) : Attrs :=
  (if stylePatternBold style then [("bold", AttrVal.b true)] else [])
  ++ (if stylePatternItalic style then [("italic", AttrVal.b true)] else [])
  ++ (if stylePatternUnderline style then [("underline", AttrVal.b true)] else [])
  ++ (if stylePatternStrike style then [("strike", AttrVal.b true)] else [])

/-- getTagAttributes of src (formatters): tag-derived attributes.  Bold is
suppressed when the adapter flags a wrapper element or the style matches the
bold-cancel pattern; a link is added only for a non-empty href (JavaScript
`if (href)` is false for the empty string). -/
def getTagAttributes (a : ServiceAdapter) (tag : String) (e : HtmlNode)
    (style : String) : Attrs :=
  (if (tag == "b" || tag == "strong") && !a.isWrapperElement e style
      && !stylePatternBoldNormal style then [("bold", AttrVal.b true)] else [])
  ++ (if tag == "i" || tag == "em" then [("italic", AttrVal.b true)] else [])
  ++ (if tag == "u" then [("underline", AttrVal.b true)] else [])
  ++ (if tag == "s" || tag == "strike" || tag == "del" then
        [("strike", AttrVal.b true)] else [])
  ++ (if tag == "code" then [("code", AttrVal.b true)] else [])
  ++ (if tag == "a" then
        match hrefOf e with
        | some h => if h != "" then [("link", AttrVal.s (a.extractUrl h))] else []
        | none => []
      else [])

mutual

/-- getFormattedOps of src (formatters): recursively walk the children of an
element accumulating inherited attributes. -/
def getFormattedOps (a : ServiceAdapter) (inh : Attrs) (preserve : Bool) :
    HtmlNode → List SlackTextOp
  | .text _ => []
  | .elem _ _ _ _ ch => formatChildren a inh preserve ch

/-- Child loop of getFormattedOps.  Text nodes are emitted verbatim when
newlines are preserved, otherwise trimmed and dropped when whitespace-only;
nested list containers are skipped; other elements recurse with the merged
attribute set inherited → tag-derived → style-derived. -/
def formatChildren (a : ServiceAdapter) (inh : Attrs) (preserve : Bool) :
    List HtmlNode → List SlackTextOp
  | [] => []
  | .text t :: rest =>
    (if preserve then
      (if t != "" then [createTextOp t inh] else [])
     else
      (if jsTrim t != "" then [createTextOp (jsTrim t) inh] else []))
    ++ formatChildren a inh preserve rest
  | (.elem tag style lst href ch) :: rest =>
    (if tag == "ul" || tag == "ol" then []
     else
      getFormattedOps a
        (mergeAttrs
          (mergeAttrs inh (getTagAttributes a tag (.elem tag style lst href ch) style))
          (extractStyleAttributes style))
        preserve (.elem tag style lst href ch))
    ++ formatChildren a inh preserve rest

end

mutual

/-- textContent of a DOM node: concatenation of all descendant text data. -/
def textContent : HtmlNode → String
  | .text t => t
  | .elem _ _ _ _ ch => textContentList ch

/-- textContent over a node list. -/
def textContentList : List HtmlNode → String
  | [] => ""
  | c :: cs => textContent c ++ textContentList cs

end

mutual

/-- Search a node and its descendants, in document order, for a `code`
element. -/
def qsCodeNode : HtmlNode → Option HtmlNode
  | .text _ => none
  | .elem tag st lst hf ch =>
    if tag == "code" then some (.elem tag st lst hf ch) else qsCodeList ch

/-- Search a node list, in document order, for a `code` element. -/
def qsCodeList : List HtmlNode → Option HtmlNode
  | [] => none
  | c :: cs =>
    match qsCodeNode c with
    | some e => some e
    | none => qsCodeList cs

end

/-- `element.querySelector("code")`: first `code` descendant, excluding the
element itself. -/
def querySelectorCode (e : HtmlNode) : Option HtmlNode :=
  qsCodeList (childrenOf e)

mutual

/-- Does this node or one of its descendants carry an inline-formatting tag?
Models `element.querySelector(INLINE_TAGS.join(", "))` truthiness, applied to
a node in the searched subtree. -/
def hasInlineNode : HtmlNode → Bool
  | .text _ => false
  | .elem tag _ _ _ ch => INLINE_TAGS.contains tag || hasInlineList ch

/-- Inline-descendant search over a node list. -/
def hasInlineList : List HtmlNode → Bool
  | [] => false
  | c :: cs => hasInlineNode c || hasInlineList cs

end

/-- Character-with-attributes tuple (CharInfo of src converter types). -/
structure CharInfo where
  char : Char
  attrs : Option Attrs
deriving DecidableEq

/-- buildCharInfoArray of the blockquote handler: expand operations into a
flat character list, each character tagged with the attribute set of the
operation it came from. -/
def buildCharInfoArray (contentOps : List SlackTextOp) : List CharInfo :=
  contentOps.flatMap (fun op => op.insert.data.map (fun c => ⟨c, op.attributes⟩))

/-- trimLine of the blockquote handler: drop leading and trailing whitespace
characters (single-character `trim` is the whitespace test). -/
def trimLine (line : List CharInfo) : List CharInfo :=
  ((line.dropWhile (fun c => isJsWs c.char)).reverse.dropWhile
    (fun c => isJsWs c.char)).reverse

/-- Build one operation of convertLineToOps from an accumulated run: the
attributes key of the run start is attached when non-empty. -/
def runToOp (key : Attrs) (acc : List Char) : SlackTextOp :=
  ⟨String.mk acc, if key.isEmpty then none else some key⟩

/-- Inner loop of convertLineToOps: extend the current run while the
character attribute key (the `JSON.stringify(attrs ?? {})` of the source,
here the ordered list itself) matches, emitting an operation whenever the
key changes and at the end. -/
def convertLineAux (key : Attrs) (acc : List Char) :
    List CharInfo → List SlackTextOp
  | [] => [runToOp key acc]
  | c :: rest =>
    if c.attrs.getD [] == key then convertLineAux key (acc ++ [c.char]) rest
    else runToOp key acc :: convertLineAux (c.attrs.getD []) [c.char] rest

/-- convertLineToOps of the blockquote handler: regroup consecutive
characters with equal attribute sets into operations. -/
def convertLineToOps : List CharInfo → List SlackTextOp
  | [] => []
  | c :: rest => convertLineAux (c.attrs.getD []) [c.char] rest

/-- flushLine of the blockquote handler: convert the current line, dropping
it when it trims to nothing, otherwise appending the blockquote-attributed
newline. -/
def flushLine (cur : List CharInfo) : List SlackTextOp :=
  let trimmed := trimLine cur
  if trimmed.isEmpty then []
  else convertLineToOps trimmed ++ [⟨"\n", some [("blockquote", AttrVal.b true)]⟩]

/-- Character loop of the blockquote handler: accumulate the current line and
flush it at each newline character and once at the end. -/
def bqSplit : List CharInfo → List CharInfo → List SlackTextOp
  | [], cur => flushLine cur
  | c :: rest, cur =>
    if c.char == '\n' then flushLine cur ++ bqSplit rest []
    else bqSplit rest (cur ++ [c])

/-- blockquoteHandler.handle of src handlers/blockquote. -/
def handleBlockquote (a : ServiceAdapter) (e : HtmlNode) : List SlackTextOp :=
  bqSplit (buildCharInfoArray (getFormattedOps a [] true e)) []

/-- Raw text of a code block: the nested `code` element when present, the
`pre` element itself otherwise. -/
def codeBlockText (e : HtmlNode) : String :=
  match querySelectorCode e with
  | some codeEl => textContent codeEl
  | none => textContent e

/-- codeBlockHandler.handle of src handlers/code-block: strip trailing
whitespace, split on newline, emit each non-empty line followed by a
code-block newline (the newline is emitted for every split line, including
empty ones). -/
def handleCodeBlock (e : HtmlNode) : List SlackTextOp :=
  let text := jsTrimEnd (codeBlockText e)
  if text != "" then
    (splitLines text).flatMap (fun line =>
      (if line != "" then [(⟨line, none⟩ : SlackTextOp)] else [])
        ++ [⟨"\n", some [("code-block", AttrVal.b true)]⟩])
  else []

/-- Newline attributes of the list-item handler: list kind, plus indent when
the adapter-reported level exceeds one. -/
def listItemAttrs (a : ServiceAdapter) (parentTag : String)
    (anc : List String) (e : HtmlNode) : Attrs :=
  let level := a.getListLevel e anc
  let isOrdered := parentTag == "ol"
    || ORDERED_LIST_PATTERNS.any (fun p => strContains (listStyleTypeOf e) p)
  ("list", AttrVal.s (if isOrdered then "ordered" else "bullet"))
    :: (if level > 1 then [("indent", AttrVal.i (level - 1))] else [])

/-- listItemHandler.handle of src handlers/list-item: content operations (the
inline formatter skips nested list containers) followed unconditionally by
the attributed newline. -/
def handleListItem (a : ServiceAdapter) (parentTag : String)
    (anc : List String) (e : HtmlNode) : List SlackTextOp :=
  getFormattedOps a [] false e ++ [⟨"\n", some (listItemAttrs a parentTag anc e)⟩]

/-- paragraphHandler.handle of src handlers/paragraph: content plus a plain
newline when the content is non-empty, nothing otherwise. -/
def handleParagraph (a : ServiceAdapter) (e : HtmlNode) : List SlackTextOp :=
  let contentOps := getFormattedOps a [] false e
  if contentOps.length > 0 then contentOps ++ [⟨"\n", none⟩] else []

/-- headingHandler.handle of src (unnamed heading handler file): identical to
the paragraph production. -/
def handleHeading (a : ServiceAdapter) (e : HtmlNode) : List SlackTextOp :=
  let contentOps := getFormattedOps a [] false e
  if contentOps.length > 0 then contentOps ++ [⟨"\n", none⟩] else []

/-- divHandler.handle of src handlers/div: produce content only when the div
has a direct non-whitespace text child or an inline-formatting descendant. -/
def handleDiv (a : ServiceAdapter) (e : HtmlNode) : List SlackTextOp :=
  let hasTextContent := (childrenOf e).any (fun c =>
    match c with
    | .text t => jsTrim t != ""
    | .elem _ _ _ _ _ => false)
  let hasInlineElements := hasInlineList (childrenOf e)
  if hasTextContent || hasInlineElements then
    let contentOps := getFormattedOps a [] false e
    if contentOps.length > 0 then contentOps ++ [⟨"\n", none⟩] else []
  else []

/-- Heading tags matched by `/^h[1-6]$/`. -/
def headingTags : List String := ["h1", "h2", "h3", "h4", "h5", "h6"]

mutual

/-- Dispatcher step of convertToSlackTexty: try the block handlers in their
fixed order on an element; a handler that skips descendants ends the walk of
this subtree, the list-item handler and the no-handler case continue into the
children.  `anc` is the ancestor tag chain (innermost first), standing in for
the `closest` calls of the source predicates; `parentTag` is the parent
element tag. -/
def walk (a : ServiceAdapter) (anc : List String) (parentTag : String) :
    HtmlNode → List SlackTextOp
  | .text _ => []
  | .elem tag style lst href ch =>
    if tag == "blockquote" && !anc.contains "li" then
      handleBlockquote a (.elem tag style lst href ch)
    else if tag == "pre" then
      handleCodeBlock (.elem tag style lst href ch)
    else if tag == "li" then
      handleListItem a parentTag anc (.elem tag style lst href ch)
        ++ walkList a (tag :: anc) tag ch
    else if tag == "p" && !anc.contains "li" then
      handleParagraph a (.elem tag style lst href ch)
    else if headingTags.contains tag && !anc.contains "li" then
      handleHeading a (.elem tag style lst href ch)
    else if tag == "div" && !anc.contains "li" && !anc.contains "p" then
      handleDiv a (.elem tag style lst href ch)
    else
      walkList a (tag :: anc) tag ch

/-- Document-order walk over a sibling list. -/
def walkList (a : ServiceAdapter) (anc : List String) (parentTag : String) :
    List HtmlNode → List SlackTextOp
  | [] => []
  | c :: cs => walk a anc parentTag c ++ walkList a anc parentTag cs

end

/-- convertToSlackTexty of src converter: walk all elements under the parsed
body in document order and collect the operations of the first matching
handler of each. -/
def convertToSlackTexty (a : ServiceAdapter) (body : List HtmlNode) :
    List SlackTextOp :=
  walkList a [] "body" body

/-- Indentation string `"    ".repeat(level)`. -/
def indentStr : Nat → String
  | 0 => ""
  | n + 1 => "    " ++ indentStr n

mutual

/-- One step of the processNode closure of convertToPlainText: list items
render as indent, bullet and trimmed flattened text; list containers recurse
one level deeper; paragraphs render as trimmed flattened text; a line break
renders as a bare newline; anything else recurses without structure. -/
def plainNode (level : Nat) : HtmlNode → String
  | .text t => jsTrim t
  | .elem tag _ _ _ ch =>
    if tag == "li" then
      indentStr level ++ "• " ++ jsTrim (textContentList ch) ++ "\n"
    else if tag == "ul" || tag == "ol" then plainList (level + 1) ch
    else if tag == "p" then jsTrim (textContentList ch) ++ "\n"
    else if tag == "br" then "\n"
    else plainList level ch

/-- Child loop of processNode. -/
def plainList (level : Nat) : List HtmlNode → String
  | [] => ""
  | c :: cs => plainNode level c ++ plainList level cs

end

/-- convertToPlainText of src converter. -/
def convertToPlainText (body : List HtmlNode) : String :=
  plainList 0 body

/-- Adapter with constant level 1, identity URL extraction and no wrapper
detection, mirroring the mock adapter of the converter tests. -/
def constAdapter : ServiceAdapter :=
  ⟨fun _ _ => 1, fun s => s, fun _ _ => false⟩

/-- Attribute keys the inline formatter can produce. -/
def inlineKeys : List String :=
  ["bold", "italic", "underline", "strike", "code", "link"]

/-- Does the operation carry one of the four block-level attribute keys? -/
def hasBlockAttr (op : SlackTextOp) : Bool :=
  match op.attributes with
  | none => false
  | some l => l.any (fun kv =>
      kv.1 == "list" || kv.1 == "indent" || kv.1 == "blockquote"
        || kv.1 == "code-block")

/-- Every key of the attribute set is an inline key. -/
def attrsInline (l : Attrs) : Prop := ∀ kv ∈ l, kv.1 ∈ inlineKeys

/-- Inline-key property lifted to an optional attribute set. -/
def optAttrsInline (o : Option Attrs) : Prop :=
  ∀ l, o = some l → attrsInline l

/-- Invariant of operations produced by the inline formatter: non-empty text
and only inline attribute keys. -/
def contentOpGood (op : SlackTextOp) : Prop :=
  op.insert ≠ "" ∧ optAttrsInline op.attributes

/-- Invariant of operations in a converted document: non-empty text, and any
operation that is not a single newline carries only inline attribute keys. -/
def docOpGood (op : SlackTextOp) : Prop :=
  op.insert ≠ "" ∧ (op.insert = "\n" ∨ optAttrsInline op.attributes)

mutual

/-- Lines the plain-text fallback is expected to devote to the structural
elements it reaches: one indented bullet line per list item, one line per
paragraph, one bare newline per line break, descending exactly where
`plainNode` descends.  This characterisation follows the specification text
of the plain-text converter and is compared with `convertToPlainText`. -/
def expLinesNode (level : Nat) : HtmlNode → List String
  | .text _ => []
  | .elem tag _ _ _ ch =>
    if tag == "li" then
      [indentStr level ++ "• " ++ jsTrim (textContentList ch) ++ "\n"]
    else if tag == "ul" || tag == "ol" then expLinesList (level + 1) ch
    else if tag == "p" then [jsTrim (textContentList ch) ++ "\n"]
    else if tag == "br" then ["\n"]
    else expLinesList level ch

/-- Expected lines of a sibling list. -/
def expLinesList (level : Nat) : List HtmlNode → List String
  | [] => []
  | c :: cs => expLinesNode level c ++ expLinesList level cs

end

/-- The strings of the list occur, in order, as disjoint substrings of the
given string. -/
inductive ChainSub : List String → String → Prop where
  | nil (s : String) : ChainSub [] s
  | cons (pre l rest : String) (ls : List String) (h : ChainSub ls rest) :
      ChainSub (l :: ls) (pre ++ (l ++ rest))

/-- Parse tree of `<li>Item 1</li>`. -/
def sampleItem1 : HtmlNode := .elem "li" "" "" none [.text "Item 1"]

/-- Parse tree of `<li>Item 2</li>`. -/
def sampleItem2 : HtmlNode := .elem "li" "" "" none [.text "Item 2"]

/-- Parse tree of `<ul><li>Item 1</li><li>Item 2</li></ul>`. -/
def sampleList : HtmlNode := .elem "ul" "" "" none [sampleItem1, sampleItem2]

/-- Parse tree of `<strong>bold</strong>`. -/
def sampleStrong : HtmlNode := .elem "strong" "" "" none [.text "bold"]

/-- Parse tree of the block-quote scenario input
`<blockquote>bold<strong>bold</strong>bold\nplain</blockquote>`. -/
def sampleBlockquote : HtmlNode :=
  .elem "blockquote" "" "" none [.text "bold", sampleStrong, .text "bold\nplain"]

/-- Parse tree of `<pre><code>line1\nline2\n</code></pre>`. -/
def samplePre : HtmlNode :=
  .elem "pre" "" "" none [.elem "code" "" "" none [.text "line1\nline2\n"]]

/-- Parse tree of `<pre><code>a\n\nb</code></pre>` (interior blank line). -/
def samplePreBlank : HtmlNode :=
  .elem "pre" "" "" none [.elem "code" "" "" none [.text "a\n\nb"]]

/-- Parse tree of `<b style="font-weight: normal;">x</b>`. -/
def sampleBoldNormal : HtmlNode :=
  .elem "b" "font-weight: normal;" "" none [.text "x"]

/-- The bold-cancel element wrapped in a paragraph, so that the dispatcher
reaches the inline formatter. -/
def sampleParaBoldNormal : HtmlNode := .elem "p" "" "" none [sampleBoldNormal]

/-- Parse tree of `<ul><li><pre>x</pre></li></ul>`: a preformatted block
nested inside a list item. -/
def samplePreInList : HtmlNode :=
  .elem "ul" "" "" none
    [.elem "li" "" "" none [.elem "pre" "" "" none [.text "x"]]]

/-- Parse tree of `<li></li>`. -/
def sampleEmptyItem : HtmlNode := .elem "li" "" "" none []

/-- Parse tree of `<ul><li></li></ul>`. -/
def sampleEmptyList : HtmlNode := .elem "ul" "" "" none [sampleEmptyItem]

/-- Parse tree of `<ul><li>Item</li></ul>`. -/
def sampleBareList : HtmlNode :=
  .elem "ul" "" "" none [.elem "li" "" "" none [.text "Item"]]

/-- Parse tree of `<div><ul><li>Item</li></ul></div>`: a generic container
with no direct text and no inline descendant, wrapping a list. -/
def sampleDivList : HtmlNode := .elem "div" "" "" none [sampleBareList]

/-- Parse tree of `<ul><li>A<ul><li>B</li></ul></li></ul>`: a list nested
inside a list item. -/
def sampleNestedItemList : HtmlNode :=
  .elem "ul" "" "" none
    [.elem "li" "" "" none
      [.text "A", .elem "ul" "" "" none [.elem "li" "" "" none [.text "B"]]]]

/-- C2.  The round-trip text claim fails on the code: for a preformatted
block nested inside a list item, the code-block handler matches again (its
predicate has no list-item exclusion), so the text `x` is emitted twice —
once as inline content of the list item and once by the code-block handler.
The claim predicts each visible character exactly once. -/
theorem c2_pre_inside_list_item_duplicates_text :
    convertToSlackTexty constAdapter [samplePreInList] =
      [⟨"x", none⟩, ⟨"\n", some [("list", AttrVal.s "bullet")]⟩,
       ⟨"x", none⟩, ⟨"\n", some [("code-block", AttrVal.b true)]⟩] := rfl

/-- C3.  Block-quote processing scenario: for every adapter that does not
flag the strong element as a wrapper, the input
`<blockquote>bold<strong>bold</strong>bold\nplain</blockquote>` produces the
two lines regrouped per attribute run, the bold attribute only on the run
coming from the strong element, and exactly one blockquote-attributed
newline per surviving line. -/
theorem c3_blockquote_scenario (a : ServiceAdapter)
    (h : a.isWrapperElement sampleStrong "" = false) :
    convertToSlackTexty a [sampleBlockquote] =
      [⟨"bold", none⟩, ⟨"bold", some [("bold", AttrVal.b true)]⟩,
       ⟨"bold", none⟩, ⟨"\n", some [("blockquote", AttrVal.b true)]⟩,
       ⟨"plain", none⟩, ⟨"\n", some [("blockquote", AttrVal.b true)]⟩] := by
  simp only [sampleStrong] at h
  simp +decide [convertToSlackTexty, walkList, walk, handleBlockquote,
    getFormattedOps, formatChildren, getTagAttributes, h, extractStyleAttributes,
    mergeAttrs, createTextOp, buildCharInfoArray, bqSplit, flushLine, trimLine,
    convertLineToOps, convertLineAux, runToOp, sampleBlockquote, sampleStrong]

/-- C3 witness: the scenario instantiated at the mock adapter. -/
theorem c3_blockquote_scenario_witness :
    convertToSlackTexty constAdapter [sampleBlockquote] =
      [⟨"bold", none⟩, ⟨"bold", some [("bold", AttrVal.b true)]⟩,
       ⟨"bold", none⟩, ⟨"\n", some [("blockquote", AttrVal.b true)]⟩,
       ⟨"plain", none⟩, ⟨"\n", some [("blockquote", AttrVal.b true)]⟩] :=
  c3_blockquote_scenario constAdapter rfl

/-- C4.  Code-block scenario: `<pre><code>line1\nline2\n</code></pre>`
yields exactly two text/newline pairs (the trailing blank line produced by
the final source newline is stripped before the split), and an interior
blank line still gets its attributed newline, for every adapter. -/
theorem c4_code_block_scenario :
    (∀ a : ServiceAdapter, convertToSlackTexty a [samplePre] =
      [⟨"line1", none⟩, ⟨"\n", some [("code-block", AttrVal.b true)]⟩,
       ⟨"line2", none⟩, ⟨"\n", some [("code-block", AttrVal.b true)]⟩]) ∧
    (∀ a : ServiceAdapter, convertToSlackTexty a [samplePreBlank] =
      [⟨"a", none⟩, ⟨"\n", some [("code-block", AttrVal.b true)]⟩,
       ⟨"\n", some [("code-block", AttrVal.b true)]⟩,
       ⟨"b", none⟩, ⟨"\n", some [("code-block", AttrVal.b true)]⟩]) :=
  ⟨fun _ => rfl, fun _ => rfl⟩

/-- C5.  Simple bullet list scenario: with any adapter reporting list level
1 for both items, `<ul><li>Item 1</li><li>Item 2</li></ul>` converts to
exactly the four operations, in order, with no indent attribute. -/
theorem c5_simple_bullet_list_scenario (a : ServiceAdapter)
    (h1 : a.getListLevel sampleItem1 ["ul"] = 1)
    (h2 : a.getListLevel sampleItem2 ["ul"] = 1) :
    convertToSlackTexty a [sampleList] =
      [⟨"Item 1", none⟩, ⟨"\n", some [("list", AttrVal.s "bullet")]⟩,
       ⟨"Item 2", none⟩, ⟨"\n", some [("list", AttrVal.s "bullet")]⟩] := by
  simp only [sampleItem1, sampleItem2] at h1 h2
  simp +decide [convertToSlackTexty, walkList, walk, handleListItem,
    listItemAttrs, getFormattedOps, formatChildren, createTextOp, h1, h2,
    sampleList, sampleItem1, sampleItem2]

/-- C5 witness: the scenario instantiated at the mock adapter. -/
theorem c5_simple_bullet_list_scenario_witness :
    convertToSlackTexty constAdapter [sampleList] =
      [⟨"Item 1", none⟩, ⟨"\n", some [("list", AttrVal.s "bullet")]⟩,
       ⟨"Item 2", none⟩, ⟨"\n", some [("list", AttrVal.s "bullet")]⟩] :=
  c5_simple_bullet_list_scenario constAdapter rfl rfl

/-- C6.  Bold suppression: for every b or strong element whose style matches
the bold-cancel pattern or that the adapter flags as a wrapper, the
tag-derived attributes contain no bold key; and the concrete input
`<b style="font-weight: normal;">x</b>` (inside a paragraph, so that the
dispatcher reaches it) produces its text with no attributes at all. -/
theorem c6_bold_cancel_suppresses_tag_bold :
    (∀ (a : ServiceAdapter) (tag : String) (e : HtmlNode) (style : String),
      tag = "b" ∨ tag = "strong" →
      stylePatternBoldNormal style = true ∨ a.isWrapperElement e style = true →
      (getTagAttributes a tag e style).lookup "bold" = none) ∧
    (∀ a : ServiceAdapter, convertToSlackTexty a [sampleParaBoldNormal] =
      [⟨"x", none⟩, ⟨"\n", none⟩]) := by
  constructor
  · intro a tag e style htag hsup
    rcases htag with rfl | rfl <;> rcases hsup with h | h <;>
      simp +decide [getTagAttributes, h, List.lookup]
  · intro a
    have hbn : stylePatternBoldNormal "font-weight: normal;" = true := by decide
    have hst : extractStyleAttributes "font-weight: normal;" = [] := by decide
    simp +decide [convertToSlackTexty, walkList, walk, handleParagraph,
      getFormattedOps, formatChildren, getTagAttributes, mergeAttrs,
      createTextOp, sampleParaBoldNormal, sampleBoldNormal, hbn, hst]

/-- C6 witness: the general suppression applied at tag b, the mock adapter
and the concrete bold-cancel style. -/
theorem c6_bold_cancel_witness :
    (getTagAttributes constAdapter "b" sampleBoldNormal
      "font-weight: normal;").lookup "bold" = none :=
  c6_bold_cancel_suppresses_tag_bold.1 constAdapter "b" sampleBoldNormal
    "font-weight: normal;" (Or.inl rfl) (Or.inl (by decide))

/-- C7 counterexample: an empty list item produces zero content operations,
yet the list-item handler still emits its attributed newline, so the
converted document consists of exactly one bare attributed newline — the
claim predicts no output at all. -/
theorem c7_counterexample :
    getFormattedOps constAdapter [] false sampleEmptyItem = [] ∧
    convertToSlackTexty constAdapter [sampleEmptyList] =
      [⟨"\n", some [("list", AttrVal.s "bullet")]⟩] :=
  ⟨rfl, rfl⟩

/-- C8.  The generic-container claim fails on the code: `canHandle` of the
div handler checks only tag and ancestry, and `handle` skips the subtree
unconditionally, so a content-less div wrapping a list swallows the list
(first conjunct), although the same list converts normally when not wrapped
(second conjunct). -/
theorem c8_div_without_content_skips_subtree :
    convertToSlackTexty constAdapter [sampleDivList] = [] ∧
    convertToSlackTexty constAdapter [sampleBareList] =
      [⟨"Item", none⟩, ⟨"\n", some [("list", AttrVal.s "bullet")]⟩] :=
  ⟨rfl, rfl⟩

/-- C9 counterexample: for a list nested inside a list item, the plain-text
fallback flattens the inner item into the outer bullet line instead of
rendering it on its own deeper-indented line: the claim predicts a line of
eight spaces, bullet and `B`, which does not occur in the output. -/
theorem c9_counterexample :
    convertToPlainText [sampleNestedItemList] = "    • AB\n" ∧
    strContains (convertToPlainText [sampleNestedItemList]) "        • B"
      = false :=
  ⟨rfl, by decide⟩

theorem attrsInline_nil : attrsInline [] := by
  intro kv hkv
  simp at hkv

theorem mem_ite_nil {α : Type} {c : Prop} [Decidable c] {l : List α}
    {x : α} (h : x ∈ (if c then l else [])) : x ∈ l := by
  by_cases hc : c
  · rwa [if_pos hc] at h
  · rw [if_neg hc] at h
    cases h

theorem attrsInline_tagAttrs (a : ServiceAdapter) (tag : String)
    (e : HtmlNode) (style : String) :
    attrsInline (getTagAttributes a tag e style) := by
  intro kv hkv
  unfold getTagAttributes at hkv
  simp only [List.mem_append] at hkv
  rcases hkv with ((((h | h) | h) | h) | h) | h
  · rw [List.mem_singleton.1 (mem_ite_nil h)]; decide
  · rw [List.mem_singleton.1 (mem_ite_nil h)]; decide
  · rw [List.mem_singleton.1 (mem_ite_nil h)]; decide
  · rw [List.mem_singleton.1 (mem_ite_nil h)]; decide
  · rw [List.mem_singleton.1 (mem_ite_nil h)]; decide
  · have h2 := mem_ite_nil h
    cases hh : hrefOf e <;> rw [hh] at h2
    · cases h2
    · rw [List.mem_singleton.1 (mem_ite_nil h2)]
      exact show ("link" : String) ∈ inlineKeys by decide

theorem attrsInline_styleAttrs (style : String) :
    attrsInline (extractStyleAttributes style) := by
  intro kv hkv
  unfold extractStyleAttributes at hkv
  simp only [List.mem_append] at hkv
  rcases hkv with ((h | h) | h) | h <;>
    (rw [List.mem_singleton.1 (mem_ite_nil h)]; decide)

theorem attrsInline_merge {x y : Attrs} (hx : attrsInline x)
    (hy : attrsInline y) : attrsInline (mergeAttrs x y) := by
  intro kv hkv
  unfold mergeAttrs at hkv
  rcases List.mem_append.1 hkv with h | h
  · obtain ⟨kv2, hkv2, rfl⟩ := List.mem_map.1 h
    exact hx kv2 hkv2
  · exact hy kv (List.mem_filter.1 h).1

theorem contentOpGood_createTextOp {t : String} {attrs : Attrs}
    (ht : t ≠ "") (ha : attrsInline attrs) :
    contentOpGood (createTextOp t attrs) := by
  unfold createTextOp
  split
  · exact ⟨ht, fun l hl => by injection hl with h2; subst h2; exact ha⟩
  · exact ⟨ht, fun l hl => by cases hl⟩

theorem formatChildren_good (a : ServiceAdapter) (inh : Attrs)
    (preserve : Bool) (l : List HtmlNode) :
    attrsInline inh → ∀ op ∈ formatChildren a inh preserve l, contentOpGood op := by
  refine formatChildren.induct a
    (fun inh preserve n =>
      attrsInline inh → ∀ op ∈ getFormattedOps a inh preserve n, contentOpGood op)
    (fun inh preserve l =>
      attrsInline inh → ∀ op ∈ formatChildren a inh preserve l, contentOpGood op)
    ?_ ?_ ?_ ?_ ?_ inh preserve l
  · intro inh pres content _ op hop
    simp [getFormattedOps] at hop
  · intro inh pres tag style lst href ch ih hinh op hop
    rw [getFormattedOps] at hop
    exact ih hinh op hop
  · intro inh pres _ op hop
    simp [formatChildren] at hop
  · intro inh pres t rest ih hinh op hop
    rw [formatChildren] at hop
    rcases List.mem_append.1 hop with h | h
    · split at h
      · split at h
        · rename_i ht
          rw [List.mem_singleton] at h
          subst h
          exact contentOpGood_createTextOp (by simpa using ht) hinh
        · cases h
      · split at h
        · rename_i ht
          rw [List.mem_singleton] at h
          subst h
          exact contentOpGood_createTextOp (by simpa using ht) hinh
        · cases h
    · exact ih hinh op h
  · intro inh pres tag style lst href ch rest ih1 ih2 hinh op hop
    rw [formatChildren] at hop
    rcases List.mem_append.1 hop with h | h
    · split at h
      · cases h
      · exact ih1
          (attrsInline_merge
            (attrsInline_merge hinh (attrsInline_tagAttrs a tag _ style))
            (attrsInline_styleAttrs style)) op h
    · exact ih2 hinh op h

theorem getFormattedOps_good (a : ServiceAdapter) (inh : Attrs)
    (preserve : Bool) (n : HtmlNode) (hinh : attrsInline inh) :
    ∀ op ∈ getFormattedOps a inh preserve n, contentOpGood op := by
  cases n with
  | text t => intro op hop; simp [getFormattedOps] at hop
  | elem tag style lst href ch =>
    rw [getFormattedOps]
    exact formatChildren_good a inh preserve ch hinh

theorem contentToDocGood {op : SlackTextOp} (h : contentOpGood op) :
    docOpGood op :=
  ⟨h.1, Or.inr h.2⟩

theorem charInfo_attrs {ops : List SlackTextOp}
    (h : ∀ op ∈ ops, contentOpGood op) :
    ∀ c ∈ buildCharInfoArray ops, optAttrsInline c.attrs := by
  intro c hc
  unfold buildCharInfoArray at hc
  obtain ⟨op, hop, hc2⟩ := List.mem_flatMap.1 hc
  obtain ⟨ch, _, rfl⟩ := List.mem_map.1 hc2
  exact (h op hop).2

theorem trimLine_subset (line : List CharInfo) :
    ∀ c ∈ trimLine line, c ∈ line := by
  intro c hc
  unfold trimLine at hc
  rw [List.mem_reverse] at hc
  have h1 := (List.dropWhile_sublist _).subset hc
  rw [List.mem_reverse] at h1
  exact (List.dropWhile_sublist _).subset h1

theorem mk_cons_ne_empty (c : Char) (l : List Char) :
    String.mk (c :: l) ≠ "" := by
  intro h
  simpa using congrArg String.data h

theorem runToOp_good {key : Attrs} {acc : List Char}
    (hk : attrsInline key) (hacc : acc ≠ []) :
    contentOpGood (runToOp key acc) := by
  obtain ⟨c, l, rfl⟩ : ∃ c l, acc = c :: l := by
    cases acc with
    | nil => exact absurd rfl hacc
    | cons c l => exact ⟨c, l, rfl⟩
  refine ⟨mk_cons_ne_empty c l, ?_⟩
  unfold runToOp
  split
  · intro l2 hl2; cases hl2
  · intro l2 hl2; injection hl2 with h2; subst h2; exact hk

theorem optAttrsInline_getD {c : CharInfo} (h : optAttrsInline c.attrs) :
    attrsInline (c.attrs.getD []) := by
  cases hc : c.attrs with
  | none => simpa [hc] using attrsInline_nil
  | some l => simpa [hc] using h l hc

theorem convertLineAux_good (cs : List CharInfo) :
    ∀ (key : Attrs) (acc : List Char), attrsInline key → acc ≠ [] →
      (∀ c ∈ cs, optAttrsInline c.attrs) →
      ∀ op ∈ convertLineAux key acc cs, contentOpGood op := by
  induction cs with
  | nil =>
    intro key acc hk hacc _ op hop
    rw [convertLineAux, List.mem_singleton] at hop
    subst hop
    exact runToOp_good hk hacc
  | cons c rest ih =>
    intro key acc hk hacc hcs op hop
    rw [convertLineAux] at hop
    split at hop
    · exact ih key (acc ++ [c.char]) hk (by simp)
        (fun x hx => hcs x (List.mem_cons_of_mem _ hx)) op hop
    · rcases List.mem_cons.1 hop with rfl | h
      · exact runToOp_good hk hacc
      · exact ih (c.attrs.getD []) [c.char]
          (optAttrsInline_getD (hcs c (List.mem_cons_self _ _)))
          (by simp) (fun x hx => hcs x (List.mem_cons_of_mem _ hx)) op h

theorem convertLineToOps_good (line : List CharInfo)
    (hline : ∀ c ∈ line, optAttrsInline c.attrs) :
    ∀ op ∈ convertLineToOps line, contentOpGood op := by
  cases line with
  | nil => intro op hop; simp [convertLineToOps] at hop
  | cons c rest =>
    rw [convertLineToOps]
    exact convertLineAux_good rest (c.attrs.getD []) [c.char]
      (optAttrsInline_getD (hline c (List.mem_cons_self _ _))) (by simp)
      (fun x hx => hline x (List.mem_cons_of_mem _ hx))

theorem flushLine_good (cur : List CharInfo)
    (hcur : ∀ c ∈ cur, optAttrsInline c.attrs) :
    ∀ op ∈ flushLine cur, docOpGood op := by
  intro op hop
  simp only [flushLine] at hop
  split at hop
  · cases hop
  · rcases List.mem_append.1 hop with h | h
    · exact contentToDocGood (convertLineToOps_good (trimLine cur)
        (fun c hc => hcur c (trimLine_subset cur c hc)) op h)
    · rw [List.mem_singleton] at h
      subst h
      exact ⟨by decide, Or.inl rfl⟩

theorem bqSplit_good (chars : List CharInfo) :
    ∀ cur : List CharInfo, (∀ c ∈ chars, optAttrsInline c.attrs) →
      (∀ c ∈ cur, optAttrsInline c.attrs) →
      ∀ op ∈ bqSplit chars cur, docOpGood op := by
  induction chars with
  | nil =>
    intro cur _ hcur op hop
    rw [bqSplit] at hop
    exact flushLine_good cur hcur op hop
  | cons c rest ih =>
    intro cur hchars hcur op hop
    rw [bqSplit] at hop
    split at hop
    · rcases List.mem_append.1 hop with h | h
      · exact flushLine_good cur hcur op h
      · exact ih [] (fun x hx => hchars x (List.mem_cons_of_mem _ hx))
          (by intro x hx; simp at hx) op h
    · refine ih (cur ++ [c]) (fun x hx => hchars x (List.mem_cons_of_mem _ hx))
        ?_ op hop
      intro x hx
      rcases List.mem_append.1 hx with h | h
      · exact hcur x h
      · rw [List.mem_singleton] at h
        subst h
        exact hchars x (List.mem_cons_self _ _)

theorem handleBlockquote_good (a : ServiceAdapter) (e : HtmlNode) :
    ∀ op ∈ handleBlockquote a e, docOpGood op := by
  rw [handleBlockquote]
  exact bqSplit_good _ []
    (charInfo_attrs (getFormattedOps_good a [] true e attrsInline_nil))
    (by intro x hx; simp at hx)

theorem handleCodeBlock_good (e : HtmlNode) :
    ∀ op ∈ handleCodeBlock e, docOpGood op := by
  intro op hop
  simp only [handleCodeBlock] at hop
  split at hop
  · obtain ⟨line, _, hop2⟩ := List.mem_flatMap.1 hop
    rcases List.mem_append.1 hop2 with h | h
    · split at h
      · rename_i hl
        rw [List.mem_singleton] at h
        subst h
        exact ⟨by simpa using hl, Or.inr (fun l2 hl2 => by cases hl2)⟩
      · cases h
    · rw [List.mem_singleton] at h
      subst h
      exact ⟨by decide, Or.inl rfl⟩
  · cases hop

theorem handleListItem_good (a : ServiceAdapter) (pt : String)
    (anc : List String) (e : HtmlNode) :
    ∀ op ∈ handleListItem a pt anc e, docOpGood op := by
  intro op hop
  rw [handleListItem] at hop
  rcases List.mem_append.1 hop with h | h
  · exact contentToDocGood (getFormattedOps_good a [] false e attrsInline_nil op h)
  · rw [List.mem_singleton] at h
    subst h
    exact ⟨show ("\n" : String) ≠ "" by decide, Or.inl rfl⟩

theorem handleParagraph_good (a : ServiceAdapter) (e : HtmlNode) :
    ∀ op ∈ handleParagraph a e, docOpGood op := by
  intro op hop
  simp only [handleParagraph] at hop
  split at hop
  · rcases List.mem_append.1 hop with h | h
    · exact contentToDocGood (getFormattedOps_good a [] false e attrsInline_nil op h)
    · rw [List.mem_singleton] at h
      subst h
      exact ⟨by decide, Or.inl rfl⟩
  · cases hop

theorem handleHeading_good (a : ServiceAdapter) (e : HtmlNode) :
    ∀ op ∈ handleHeading a e, docOpGood op := by
  intro op hop
  simp only [handleHeading] at hop
  split at hop
  · rcases List.mem_append.1 hop with h | h
    · exact contentToDocGood (getFormattedOps_good a [] false e attrsInline_nil op h)
    · rw [List.mem_singleton] at h
      subst h
      exact ⟨by decide, Or.inl rfl⟩
  · cases hop

theorem handleDiv_good (a : ServiceAdapter) (e : HtmlNode) :
    ∀ op ∈ handleDiv a e, docOpGood op := by
  intro op hop
  simp only [handleDiv] at hop
  split at hop
  · split at hop
    · rcases List.mem_append.1 hop with h | h
      · exact contentToDocGood (getFormattedOps_good a [] false e attrsInline_nil op h)
      · rw [List.mem_singleton] at h
        subst h
        exact ⟨by decide, Or.inl rfl⟩
    · cases hop
  · cases hop

theorem walkList_good (a : ServiceAdapter) (anc : List String) (pt : String)
    (l : List HtmlNode) : ∀ op ∈ walkList a anc pt l, docOpGood op := by
  refine walkList.induct a
    (fun anc pt n => ∀ op ∈ walk a anc pt n, docOpGood op)
    (fun anc pt l => ∀ op ∈ walkList a anc pt l, docOpGood op)
    ?_ ?_ ?_ ?_ ?_ ?_ ?_ ?_ ?_ ?_ anc pt l
  · intro anc pt content op hop
    simp [walk] at hop
  · intro anc pt tag style lst href ch h1 op hop
    rw [walk, if_pos h1] at hop
    exact handleBlockquote_good a _ op hop
  · intro anc pt tag style lst href ch h1 h2 op hop
    rw [walk, if_neg h1, if_pos h2] at hop
    exact handleCodeBlock_good _ op hop
  · intro anc pt tag style lst href ch h1 h2 h3 ih op hop
    rw [walk, if_neg h1, if_neg h2, if_pos h3] at hop
    rcases List.mem_append.1 hop with h | h
    · exact handleListItem_good a pt anc _ op h
    · exact ih op h
  · intro anc pt tag style lst href ch h1 h2 h3 h4 op hop
    rw [walk, if_neg h1, if_neg h2, if_neg h3, if_pos h4] at hop
    exact handleParagraph_good a _ op hop
  · intro anc pt tag style lst href ch h1 h2 h3 h4 h5 op hop
    rw [walk, if_neg h1, if_neg h2, if_neg h3, if_neg h4, if_pos h5] at hop
    exact handleHeading_good a _ op hop
  · intro anc pt tag style lst href ch h1 h2 h3 h4 h5 h6 op hop
    rw [walk, if_neg h1, if_neg h2, if_neg h3, if_neg h4, if_neg h5,
      if_pos h6] at hop
    exact handleDiv_good a _ op hop
  · intro anc pt tag style lst href ch h1 h2 h3 h4 h5 h6 ih op hop
    rw [walk, if_neg h1, if_neg h2, if_neg h3, if_neg h4, if_neg h5,
      if_neg h6] at hop
    exact ih op hop
  · intro anc pt op hop
    simp [walkList] at hop
  · intro anc pt c cs ih1 ih2 op hop
    rw [walkList] at hop
    rcases List.mem_append.1 hop with h | h
    · exact ih1 op h
    · exact ih2 op h

/-- C1.  Structural invariant: for every adapter and every input tree, an
operation of the converted document whose attributes contain one of the
block-level keys (list, indent, blockquote, code-block) has the single
newline character as its text. -/
theorem c1_block_attributes_only_on_newline (a : ServiceAdapter)
    (body : List HtmlNode) (op : SlackTextOp)
    (hmem : op ∈ convertToSlackTexty a body)
    (hblk : hasBlockAttr op = true) : op.insert = "\n" := by
  have hg := walkList_good a [] "body" body op hmem
  rcases hg.2 with h | h
  · exact h
  · exfalso
    unfold hasBlockAttr at hblk
    cases hatt : op.attributes with
    | none => rw [hatt] at hblk; cases hblk
    | some l =>
      rw [hatt, List.any_eq_true] at hblk
      obtain ⟨kv, hkv, hb⟩ := hblk
      have hk := h l hatt kv hkv
      have hb2 : ((kv.1 = "list" ∨ kv.1 = "indent") ∨ kv.1 = "blockquote")
          ∨ kv.1 = "code-block" := by simpa using hb
      rcases hb2 with ((h2 | h2) | h2) | h2 <;> rw [h2] at hk <;>
        revert hk <;> decide

/-- C1 witness: the invariant applied to the code-block newline of the
pre scenario. -/
theorem c1_block_attributes_witness :
    (⟨"\n", some [("code-block", AttrVal.b true)]⟩ : SlackTextOp)
      ∈ convertToSlackTexty constAdapter [samplePre] ∧
    (⟨"\n", some [("code-block", AttrVal.b true)]⟩ : SlackTextOp).insert = "\n" :=
  ⟨by decide,
   c1_block_attributes_only_on_newline constAdapter [samplePre] _
     (by decide) (by decide)⟩

/-- C10.  Every operation of a converted document has non-empty text: the
inline formatter and every block handler discard empty text before emitting
an operation. -/
theorem c10_no_empty_text_ops (a : ServiceAdapter) (body : List HtmlNode)
    (op : SlackTextOp) (hmem : op ∈ convertToSlackTexty a body) :
    op.insert ≠ "" :=
  (walkList_good a [] "body" body op hmem).1

/-- C10 witness: the invariant applied to the first operation of the bullet
list scenario. -/
theorem c10_no_empty_text_witness :
    (⟨"Item 1", none⟩ : SlackTextOp) ∈ convertToSlackTexty constAdapter [sampleList] ∧
    (⟨"Item 1", none⟩ : SlackTextOp).insert ≠ "" :=
  ⟨by decide,
   c10_no_empty_text_ops constAdapter [sampleList] _ (by decide)⟩

theorem trimLine_ws_nil {cur : List CharInfo}
    (h : ∀ c ∈ cur, isJsWs c.char = true) : trimLine cur = [] := by
  have h1 : cur.dropWhile (fun c => isJsWs c.char) = [] :=
    List.dropWhile_eq_nil_iff.2 (fun x hx => h x hx)
  simp [trimLine, h1]

theorem flushLine_ws {cur : List CharInfo}
    (h : ∀ c ∈ cur, isJsWs c.char = true) : flushLine cur = [] := by
  simp [flushLine, trimLine_ws_nil h]

theorem bqSplit_ws (chars : List CharInfo) :
    ∀ cur : List CharInfo, (∀ c ∈ chars, isJsWs c.char = true) →
      (∀ c ∈ cur, isJsWs c.char = true) → bqSplit chars cur = [] := by
  induction chars with
  | nil =>
    intro cur _ hcur
    rw [bqSplit]
    exact flushLine_ws hcur
  | cons c rest ih =>
    intro cur hchars hcur
    rw [bqSplit]
    split
    · rw [flushLine_ws hcur,
        ih [] (fun x hx => hchars x (List.mem_cons_of_mem _ hx))
          (by intro x hx; simp at hx)]
      rfl
    · refine ih (cur ++ [c]) (fun x hx => hchars x (List.mem_cons_of_mem _ hx)) ?_
      intro x hx
      rcases List.mem_append.1 hx with h2 | h2
      · exact hcur x h2
      · rw [List.mem_singleton.1 h2]
        exact hchars c (List.mem_cons_self _ _)

/-- C7, amended.  The block quote, code block, paragraph, heading and
generic-container handlers emit no newline when their content is empty
(empty content operations, all-whitespace block-quote characters, empty
stripped code text respectively); the list-item handler, however, emits its
attributed newline unconditionally: an empty list item contributes exactly
one bare attributed newline. -/
theorem c7_no_newline_without_content_amended :
    (∀ (a : ServiceAdapter) (e : HtmlNode),
      getFormattedOps a [] false e = [] → handleParagraph a e = []) ∧
    (∀ (a : ServiceAdapter) (e : HtmlNode),
      getFormattedOps a [] false e = [] → handleHeading a e = []) ∧
    (∀ (a : ServiceAdapter) (e : HtmlNode),
      getFormattedOps a [] false e = [] → handleDiv a e = []) ∧
    (∀ e : HtmlNode, jsTrimEnd (codeBlockText e) = "" → handleCodeBlock e = []) ∧
    (∀ (a : ServiceAdapter) (e : HtmlNode),
      (∀ c ∈ buildCharInfoArray (getFormattedOps a [] true e),
        isJsWs c.char = true) →
      handleBlockquote a e = []) ∧
    (∀ (a : ServiceAdapter) (pt : String) (anc : List String) (e : HtmlNode),
      getFormattedOps a [] false e = [] →
      handleListItem a pt anc e =
        [⟨"\n", some (listItemAttrs a pt anc e)⟩]) := by
  refine ⟨?_, ?_, ?_, ?_, ?_, ?_⟩
  · intro a e h
    simp [handleParagraph, h]
  · intro a e h
    simp [handleHeading, h]
  · intro a e h
    simp [handleDiv, h]
  · intro e h
    simp [handleCodeBlock, h]
  · intro a e h
    rw [handleBlockquote]
    exact bqSplit_ws _ [] h (by intro x hx; simp at hx)
  · intro a pt anc e h
    simp [handleListItem, h]

/-- C7 amended witness: the six parts instantiated at concrete empty
elements and the mock adapter. -/
theorem c7_no_newline_without_content_amended_witness :
    handleParagraph constAdapter (HtmlNode.elem "p" "" "" none []) = [] ∧
    handleHeading constAdapter (HtmlNode.elem "h1" "" "" none []) = [] ∧
    handleDiv constAdapter (HtmlNode.elem "div" "" "" none []) = [] ∧
    handleCodeBlock (HtmlNode.elem "pre" "" "" none [.text "  \n "]) = [] ∧
    handleBlockquote constAdapter
      (HtmlNode.elem "blockquote" "" "" none [.text " \n "]) = [] ∧
    handleListItem constAdapter "ul" ["ul"] sampleEmptyItem =
      [⟨"\n", some (listItemAttrs constAdapter "ul" ["ul"] sampleEmptyItem)⟩] :=
  ⟨c7_no_newline_without_content_amended.1 constAdapter _ rfl,
   c7_no_newline_without_content_amended.2.1 constAdapter _ rfl,
   c7_no_newline_without_content_amended.2.2.1 constAdapter _ rfl,
   c7_no_newline_without_content_amended.2.2.2.1 _ (by decide),
   c7_no_newline_without_content_amended.2.2.2.2.1 constAdapter _ (by decide),
   c7_no_newline_without_content_amended.2.2.2.2.2 constAdapter "ul" ["ul"]
     sampleEmptyItem rfl⟩

theorem chainSub_prepend {ls : List String} {s : String}
    (h : ChainSub ls s) (t : String) : ChainSub ls (t ++ s) := by
  induction h with
  | nil s => exact ChainSub.nil (t ++ s)
  | cons pre l rest ls h ih =>
    rw [← String.append_assoc]
    exact ChainSub.cons (t ++ pre) l rest ls h

theorem chainSub_append {ls1 ls2 : List String} {s1 s2 : String}
    (h1 : ChainSub ls1 s1) (h2 : ChainSub ls2 s2) :
    ChainSub (ls1 ++ ls2) (s1 ++ s2) := by
  induction h1 with
  | nil s => exact chainSub_prepend h2 s
  | cons pre l rest ls h ih =>
    rw [String.append_assoc, String.append_assoc]
    exact ChainSub.cons pre l (rest ++ s2) (ls ++ ls2) ih

theorem chainSub_line (l rest : String) : ChainSub [l] (l ++ rest) := by
  have h := ChainSub.cons "" l rest [] (ChainSub.nil rest)
  rwa [String.empty_append] at h

theorem chainSub_single (l : String) : ChainSub [l] l := by
  have h := chainSub_line l ""
  rwa [String.append_empty] at h

theorem plain_chainSub (level : Nat) (l : List HtmlNode) :
    ChainSub (expLinesList level l) (plainList level l) := by
  refine plainList.induct
    (fun level n => ChainSub (expLinesNode level n) (plainNode level n))
    (fun level l => ChainSub (expLinesList level l) (plainList level l))
    ?_ ?_ ?_ ?_ ?_ ?_ ?_ ?_ level l
  · intro level content
    rw [expLinesNode, plainNode]
    exact ChainSub.nil _
  · intro level tag style lst href ch h1
    rw [expLinesNode, plainNode, if_pos h1, if_pos h1]
    exact chainSub_single _
  · intro level tag style lst href ch h1 h2 ih
    rw [expLinesNode, plainNode, if_neg h1, if_neg h1, if_pos h2, if_pos h2]
    exact ih
  · intro level tag style lst href ch h1 h2 h3
    rw [expLinesNode, plainNode, if_neg h1, if_neg h1, if_neg h2, if_neg h2,
      if_pos h3, if_pos h3]
    exact chainSub_single _
  · intro level tag style lst href ch h1 h2 h3 h4
    rw [expLinesNode, plainNode, if_neg h1, if_neg h1, if_neg h2, if_neg h2,
      if_neg h3, if_neg h3, if_pos h4, if_pos h4]
    exact chainSub_single _
  · intro level tag style lst href ch h1 h2 h3 h4 ih
    rw [expLinesNode, plainNode, if_neg h1, if_neg h1, if_neg h2, if_neg h2,
      if_neg h3, if_neg h3, if_neg h4, if_neg h4]
    exact ih
  · intro level
    rw [expLinesList, plainList]
    exact ChainSub.nil _
  · intro level c cs ih1 ih2
    rw [expLinesList, plainList]
    exact chainSub_append ih1 ih2

/-- C9, amended.  The plain-text fallback never fails (it is a total
function of the tree), and the expected lines of the blocks its walk
reaches — one bullet line per list item with four spaces of indentation per
list-container ancestor on the walk, one line per paragraph, one bare
newline per line break — occur in this order inside the output.  Because
the walk does not descend into list items or paragraphs, a list nested
inside a list item is flattened into the text of the parent bullet line
(see the counterexample) rather than rendered at deeper indentation. -/
theorem c9_plain_text_lines_amended (body : List HtmlNode) :
    ChainSub (expLinesList 0 body) (convertToPlainText body) :=
  plain_chainSub 0 body

end Pita
